import Mathlib

/-!
Shallow embedding of the edge-triggered epoll echo server found in
src (epollet.c).  Every syscall outcome (read, write, accept, fcntl,
epoll_ctl, epoll_wait) is supplied through an explicit oracle trace, so all
definitions below are executable functions from traces to results.  Bytes
are modelled as natural numbers; buffers as lists of bytes.  Line numbers
in the doc comments refer to epollet.c.
-/

set_option maxRecDepth 10000

/-- Buffer bound from line 14 of the source: `#define BUFFER_SIZE 1024`. -/
def BUFFER_SIZE : Nat := 1024

/-- Event-array bound from line 13 of the source: `#define MAX_EVENTS 1024`. -/
def MAX_EVENTS : Nat := 1024

/-- Outcome of one `read` call on a non-blocking socket, as seen by the
accumulation loop at line 177: a positive return carries the bytes read
(`chunk`), zero signals orderly peer close (`closed`), and a negative
return is either EAGAIN/EWOULDBLOCK (`wouldBlock`) or a hard error
(`rdErr`). -/
inductive ReadResult where
  | chunk (data : List Nat)
  | closed
  | wouldBlock
  | rdErr
deriving DecidableEq

/-- Result of the accumulation loop at lines 175-242: the loop breaks with
a completely full buffer (line 182-185, no echo is attempted on this
path), reaches would-block with the bytes accumulated so far (line 196),
sees an orderly close (line 187-193), or a hard read error (line 235-239). -/
inductive ReadOutcome where
  | bufferFull (acc : List Nat)
  | drained (acc : List Nat)
  | peerClosed
  | hardError
deriving DecidableEq

/-- Accumulation loop of the Readable handler (lines 175-199 of the
source): `read(fd, buffer + total_read, sizeof(buffer) - total_read)` is
called repeatedly; a positive return is appended and the loop breaks once
`total_read == sizeof(buffer)`; `n == 0` closes the connection; EAGAIN
ends accumulation with the bytes collected; any other error is a hard
error.  An exhausted trace (a modelling artifact; `read` always returns)
yields `none`. -/
def readLoop : List ReadResult → List Nat → Option ReadOutcome
  | [], _ => none
  | .chunk d :: rest, acc =>
      if (acc ++ d).length = BUFFER_SIZE then some (.bufferFull (acc ++ d))
      else readLoop rest (acc ++ d)
  | .closed :: _, _ => some .peerClosed
  | .wouldBlock :: _, acc => some (.drained acc)
  | .rdErr :: _, _ => some .hardError

/-- Modelled from the spec: the source's Writable path refers to
`YourBuffer`, `get_pending_data` and `free_pending_data` (lines 249-269),
none of which is defined anywhere in the repository.  Per spec sections 3
and 9, pending-write state is a per-connection record holding the echo
buffer (`buf`, corresponding to the source's `pending_data->buf` with
`total_len = buf.length`) and a cursor `sent_len` of bytes already
written. -/
structure PendingData where
  buf : List Nat
  sent_len : Nat
deriving DecidableEq

/-- Outcome of one `write` call on a non-blocking socket: a non-negative
return carries the number of bytes accepted, a negative return is either
EAGAIN/EWOULDBLOCK or a hard error. -/
inductive WriteResult where
  | accepted (n : Nat)
  | wouldBlock
  | wrErr
deriving DecidableEq

/-- Result of the echo-write loop at lines 205-232: either every
accumulated byte was written (`fullySent`, the connection stays in its
reading interest), or the write would-blocked and interest was switched to
EPOLLOUT (`drainingStarted`; the carried `PendingData` records the unsent
remainder per the spec, see `PendingData`), or that interest switch itself
failed and the connection was closed (`modFailedClosed`, lines 217-221),
or the write hard-failed and the connection was closed (`closedOnError`,
lines 224-229). -/
inductive EchoOutcome where
  | fullySent
  | drainingStarted (p : PendingData)
  | modFailedClosed
  | closedOnError
deriving DecidableEq

/-- Echo-write loop (lines 205-232 of the source): while
`total_sent < total_read`, call `write(fd, buffer + total_sent,
total_read - total_sent)`.  An accepted count advances `total_sent`;
EAGAIN switches interest to `EPOLLOUT | EPOLLET | EPOLLRDHUP` via
`epoll_ctl` (whose success is the `modOk` oracle) and ends the round; a
hard error closes the connection.  The second component collects the byte
slices actually handed to the peer.  Storing the unsent remainder in
`PendingData` on would-block is Modelled from the spec (the source only
switches interest; its storage helper is the undefined
`get_pending_data` side table). -/
def echoWrite (modOk : Bool) (buf : List Nat) : List WriteResult → Nat → Option (EchoOutcome × List (List Nat))
  | [], sent => if buf.length ≤ sent then some (.fullySent, []) else none
  | w :: rest, sent =>
      if buf.length ≤ sent then some (.fullySent, [])
      else
        match w with
        | .accepted n =>
            match echoWrite modOk buf rest (sent + n) with
            | none => none
            | some (o, ds) => some (o, ((buf.drop sent).take n) :: ds)
        | .wouldBlock =>
            if modOk then some (.drainingStarted ⟨buf, sent⟩, [])
            else some (.modFailedClosed, [])
        | .wrErr => some (.closedOnError, [])

/-- Result of one whole Readable round (lines 168-243): stay in Reading
having echoed the collected chunks (`ok`), enter Draining with pending
data (`startedDraining`), close the connection (`closedConn`, covering
peer close, read errors, write errors and failed interest switches), or
break out with a full accumulation buffer, in which case the source
attempts no write at all and the accumulated bytes are discarded with the
stack frame (`bufferFullNoWrite`). -/
inductive RoundResult where
  | ok (delivered : List (List Nat))
  | startedDraining (p : PendingData) (delivered : List (List Nat))
  | closedConn (delivered : List (List Nat))
  | bufferFullNoWrite (acc : List Nat)
deriving DecidableEq

/-- Readable-event handler (lines 168-243): run the accumulation loop; on
the full-buffer break the round ends with no write attempt; on peer close
or read error the connection is closed; on would-block with
`total_read > 0` the echo-write loop runs. -/
def readableHandler (rt : List ReadResult) (wt : List WriteResult) (modOk : Bool) : Option RoundResult :=
  match readLoop rt [] with
  | none => none
  | some (.bufferFull acc) => some (.bufferFullNoWrite acc)
  | some .peerClosed => some (.closedConn [])
  | some .hardError => some (.closedConn [])
  | some (.drained acc) =>
      if 0 < acc.length then
        match echoWrite modOk acc wt 0 with
        | none => none
        | some (.fullySent, ds) => some (.ok ds)
        | some (.drainingStarted p, ds) => some (.startedDraining p ds)
        | some (.modFailedClosed, ds) => some (.closedConn ds)
        | some (.closedOnError, ds) => some (.closedConn ds)
      else some (.ok [])

/-- Bytes a Readable round delivered to the peer, defined only when the
round completed the echo and stayed in Reading. -/
def echoedBytes : Option RoundResult → Option (List Nat)
  | some (.ok ds) => some ds.flatten
  | _ => none

/-- Pending record and bytes already delivered, defined only when the
round ended by entering Draining. -/
def drainingState : Option RoundResult → Option (PendingData × List Nat)
  | some (.startedDraining p ds) => some (p, ds.flatten)
  | _ => none

/-- Result of one Writable-event round (lines 245-272): the single write
either completed the pending data (`completed`: `free_pending_data` and
interest switched back to `EPOLLIN | EPOLLET | EPOLLRDHUP`, lines
257-263), or left bytes pending (`stillDraining`, covering both a partial
positive return and EAGAIN, which keeps EPOLLOUT interest per the comment
at line 271), or hard-failed (`closedOnError`: close and free, lines
265-270). -/
inductive DrainResult where
  | completed (delivered : List Nat)
  | stillDraining (p : PendingData) (delivered : List Nat)
  | closedOnError
deriving DecidableEq

/-- Writable-event handler (lines 245-272 of the source): exactly one
`write(fd, pending_data->buf + pending_data->sent_len,
pending_data->total_len - pending_data->sent_len)` per event.  A positive
return advances `sent_len` and, when `sent_len == total_len`, frees the
pending record and restores reading interest; a zero return matches no
branch of the source and leaves everything unchanged; EAGAIN keeps
EPOLLOUT interest unchanged; any other error closes the connection and
frees the record.  The `delivered` component is the byte slice the peer
accepted.  The pending record itself is the spec-modelled `PendingData`
(see there). -/
def writableHandler (w : WriteResult) (p : PendingData) : DrainResult :=
  match w with
  | .accepted n =>
      if 0 < n then
        if p.sent_len + n = p.buf.length then
          .completed ((p.buf.drop p.sent_len).take n)
        else
          .stillDraining ⟨p.buf, p.sent_len + n⟩ ((p.buf.drop p.sent_len).take n)
      else .stillDraining p []
  | .wouldBlock => .stillDraining p []
  | .wrErr => .closedOnError

/-- Iterated Writable events while a connection drains: each element of
the trace is the write outcome of one Writable event, processed by
`writableHandler`; the run ends when the pending data completes, and
returns the slices delivered across the events.  A trace that ends before
completion, or a hard error, yields `none`. -/
def drainRun : List WriteResult → PendingData → Option (List (List Nat))
  | [], _ => none
  | w :: rest, p =>
      match writableHandler w p with
      | .completed d => some [d]
      | .stillDraining q d =>
          match drainRun rest q with
          | none => none
          | some ds => some (d :: ds)
      | .closedOnError => none

/-- Epoll event/interest mask restricted to the flags this program uses
(EPOLLET is always set wherever the source builds a mask, so it is left
implicit). -/
structure EpollEvents where
  epollin : Bool
  epollout : Bool
  rdhup : Bool
  hup : Bool
deriving DecidableEq

/-- Interest mask used when registering a freshly accepted connection
(line 137): `EPOLLIN | EPOLLET | EPOLLRDHUP`. -/
def connRegisterInterest : EpollEvents := ⟨true, false, true, false⟩

/-- Interest mask installed when the echo write would-blocks (line 215):
`EPOLLOUT | EPOLLET | EPOLLRDHUP`. -/
def drainInterest : EpollEvents := ⟨false, true, true, false⟩

/-- Result of dispatching one readiness event for a data connection
(lines 157-273). -/
inductive ConnEventResult where
  | disconnected
  | readRound (r : RoundResult)
  | writeRound (r : DrainResult)
  | noEvent
deriving DecidableEq

/-- Per-event dispatch for a data connection (lines 157-273 of the
source): an event carrying `EPOLLRDHUP` or `EPOLLHUP` closes the
connection at once (lines 160-165) and `continue`s, before the readable
branch ever runs; otherwise `EPOLLIN` runs the Readable handler (line
168); otherwise `EPOLLOUT` runs the Writable handler (line 245), which
dereferences `get_pending_data(fd)` and is therefore only defined when a
pending record exists. -/
def connEventHandler (ev : EpollEvents) (rt : List ReadResult) (wt : List WriteResult)
    (modOk : Bool) (pending : Option PendingData) (w : WriteResult) : Option ConnEventResult :=
  if ev.rdhup || ev.hup then some .disconnected
  else if ev.epollin then (readableHandler rt wt modOk).map .readRound
  else if ev.epollout then
    match pending with
    | some p => some (.writeRound (writableHandler w p))
    | none => none
  else some .noEvent

/-- Syscall oracles for one accepted connection: the accepted descriptor,
the outcomes of the two `fcntl` calls inside `set_nonblocking` (lines
19 and 25), and the outcome of the `epoll_ctl` ADD at line 139. -/
structure AcceptConn where
  fd : Nat
  getflOk : Bool
  setflOk : Bool
  ctlOk : Bool
deriving DecidableEq

/-- Outcome of one `accept` call at line 125: a new descriptor (positive
return), EAGAIN/EWOULDBLOCK meaning the backlog is drained, or another
error (logged via perror at line 151; either negative return ends the
accept loop). -/
inductive AcceptResult where
  | conn (c : AcceptConn)
  | noMore
  | err
deriving DecidableEq

/-- The helper `set_nonblocking` (lines 17-30 of the source): a failure of
either `fcntl` call prints a message and calls `exit(EXIT_FAILURE)`;
returns the exit status if the process terminates. -/
def set_nonblocking (getflOk setflOk : Bool) : Option Nat :=
  if getflOk = false then some 1
  else if setflOk = false then some 1
  else none

/-- Net effect of one pass of the accept loop: descriptors registered with
the multiplexer (each with interest `connRegisterInterest`), descriptors
closed because their registration failed, and the process exit status if
`set_nonblocking` aborted. -/
structure AcceptOutcome where
  registered : List (Nat × EpollEvents)
  closedFds : List Nat
  exitStatus : Option Nat
deriving DecidableEq

/-- Accept loop (lines 118-154 of the source): `accept` is called
repeatedly while it returns a descriptor; each new descriptor passes
through `set_nonblocking` (which may abort the process) and is added to
epoll with `EPOLLIN | EPOLLET | EPOLLRDHUP`; a failed add closes the
descriptor and `continue`s; a negative `accept` return ends the loop
(EAGAIN silently, anything else after a perror).  An exhausted trace is a
modelling artifact and yields `none`. -/
def acceptLoop : List AcceptResult → Option AcceptOutcome
  | [] => none
  | .noMore :: _ => some ⟨[], [], none⟩
  | .err :: _ => some ⟨[], [], none⟩
  | .conn c :: rest =>
      match set_nonblocking c.getflOk c.setflOk with
      | some s => some ⟨[], [], some s⟩
      | none =>
          match acceptLoop rest with
          | none => none
          | some o =>
              if c.ctlOk then
                some { o with registered := (c.fd, connRegisterInterest) :: o.registered }
              else some { o with closedFds := c.fd :: o.closedFds }

/-- Predicate on one accept outcome: the `fcntl` oracles of an accepted
connection all succeeded (vacuously true for the loop-ending results). -/
def fcntlOkOf : AcceptResult → Bool
  | .conn c => c.getflOk && c.setflOk
  | .noMore => true
  | .err => true

/-- Setup phase of `main` (lines 34-102 of the source): argument check,
`socket`, `setsockopt`, `bind`, `listen`, `epoll_create1` and the
`epoll_ctl` ADD of the listener each call `exit(EXIT_FAILURE)` on failure;
returns the exit status when setup aborts and `none` when the event loop
is reached. -/
def setupPhase (argcOk socketOk sockoptOk bindOk listenOk epollCreateOk ctlOk : Bool) : Option Nat :=
  if argcOk = false then some 1
  else if socketOk = false then some 1
  else if sockoptOk = false then some 1
  else if bindOk = false then some 1
  else if listenOk = false then some 1
  else if epollCreateOk = false then some 1
  else if ctlOk = false then some 1
  else none

/-- One turn of the event loop (lines 106-275): either `epoll_wait`
returned -1 (`waitFail`), or a batch of events was handled; `exited`
carries the process exit status when a handler aborted the process during
the batch (only `set_nonblocking` can, via `exit(EXIT_FAILURE)`), and is
`none` when the loop proceeds to the next `wait`. -/
inductive WaitTurn where
  | waitFail
  | batch (exited : Option Nat)
deriving DecidableEq

/-- Event loop of `main` (lines 106-280 of the source): loop forever over
`epoll_wait`; when it fails, `perror` then `break`, after which `main`
closes the listener and the epoll descriptor and returns 0.  Returns the
process exit status once the process terminates, `none` while it is still
running when the trace ends. -/
def eventLoopRun : List WaitTurn → Option Nat
  | [] => none
  | .waitFail :: _ => some 0
  | .batch none :: rest => eventLoopRun rest
  | .batch (some s) :: _ => some s

/-- Per-connection state as the spec's Connection record: whether the
handle is still open, the interest mask currently installed in epoll, and
the spec-modelled pending-output record (see `PendingData`). -/
structure Conn where
  isOpen : Bool
  interest : EpollEvents
  pending : Option PendingData
deriving DecidableEq

/-- State of a connection right after the accept loop registers it
(line 137): open, interest `EPOLLIN | EPOLLET | EPOLLRDHUP`, nothing
pending. -/
def initConn : Conn := ⟨true, connRegisterInterest, none⟩

/-- Effect of a Readable round on the connection record: entering
Draining installs `drainInterest` and stores the pending record (lines
215-217 plus the spec-modelled store); any close path clears the open
flag (closing the descriptor also removes it from the epoll set); the
other outcomes leave the record unchanged. -/
def applyRead (c : Conn) : RoundResult → Conn
  | .ok _ => c
  | .bufferFullNoWrite _ => c
  | .startedDraining p _ => { c with interest := drainInterest, pending := some p }
  | .closedConn _ => { c with isOpen := false }

/-- Effect of a Writable round on the connection record: completion frees
the pending record and restores `connRegisterInterest` (lines 260-262); a
still-draining outcome replaces the pending record and keeps the interest
mask; a hard error closes the connection (lines 265-270). -/
def applyWrite (c : Conn) : DrainResult → Conn
  | .completed _ => { c with interest := connRegisterInterest, pending := none }
  | .stillDraining p _ => { c with pending := some p }
  | .closedOnError => { c with isOpen := false, pending := none }

/-- One readiness event delivered to an open connection, as dispatched by
lines 157-273 of the source: a hangup event closes it; a Readable event
runs `readableHandler`; a Writable event runs `writableHandler` on the
stored pending record (the source dereferences `get_pending_data(fd)`
there, so the step requires the record to exist). -/
inductive ConnStep : Conn → Conn → Prop where
  | hupClose (c : Conn) :
      c.isOpen = true → ConnStep c { c with isOpen := false }
  | readRound (c : Conn) (rt : List ReadResult) (wt : List WriteResult) (modOk : Bool)
      (r : RoundResult) :
      c.isOpen = true → c.interest.epollin = true →
      readableHandler rt wt modOk = some r → ConnStep c (applyRead c r)
  | writeRound (c : Conn) (w : WriteResult) (p : PendingData) :
      c.isOpen = true → c.interest.epollout = true → c.pending = some p →
      ConnStep c (applyWrite c (writableHandler w p))

/-- Connection states reachable from a freshly registered connection. -/
def ConnReachable (c : Conn) : Prop :=
  Relation.ReflTransGen ConnStep initConn c

/-- Helper: a trace of successful reads followed by would-block drains the
chunks into the accumulator provided the total stays below the buffer
bound. -/
theorem readLoop_drains (chunks : List (List Nat)) :
    ∀ acc : List Nat, acc.length + chunks.flatten.length < BUFFER_SIZE →
      readLoop (chunks.map ReadResult.chunk ++ [ReadResult.wouldBlock]) acc
        = some (ReadOutcome.drained (acc ++ chunks.flatten)) := by
  induction chunks with
  | nil =>
      intro acc _
      simp [readLoop]
  | cons c cs ih =>
      intro acc h
      have hne : ¬ (acc ++ c).length = BUFFER_SIZE := by
        simp only [List.flatten_cons, List.length_append] at h ⊢
        omega
      simp only [List.map_cons, List.cons_append, readLoop, if_neg hne, List.append_eq]
      rw [ih (acc ++ c) (by simp only [List.flatten_cons, List.length_append] at h ⊢; omega)]
      simp [List.append_assoc]

/-- Helper: a trace of successful reads followed by the peer's zero-length
read closes the connection provided the total stays below the buffer
bound. -/
theorem readLoop_peerCloses (chunks : List (List Nat)) :
    ∀ acc : List Nat, acc.length + chunks.flatten.length < BUFFER_SIZE →
      readLoop (chunks.map ReadResult.chunk ++ [ReadResult.closed]) acc
        = some ReadOutcome.peerClosed := by
  induction chunks with
  | nil =>
      intro acc _
      simp [readLoop]
  | cons c cs ih =>
      intro acc h
      have hne : ¬ (acc ++ c).length = BUFFER_SIZE := by
        simp only [List.flatten_cons, List.length_append] at h ⊢
        omega
      simp only [List.map_cons, List.cons_append, readLoop, if_neg hne, List.append_eq]
      exact ih (acc ++ c) (by simp only [List.flatten_cons, List.length_append] at h ⊢; omega)

/-- Helper: when the peer accepts write counts summing exactly to the rest
of the buffer, the echo loop ends fully sent and delivers exactly the
suffix of the buffer from the starting offset, in order. -/
theorem echoWrite_fullySent (modOk : Bool) (buf : List Nat) (amounts : List Nat) :
    ∀ s : Nat, s + amounts.sum = buf.length →
      ∃ ds, echoWrite modOk buf (amounts.map WriteResult.accepted) s
          = some (EchoOutcome.fullySent, ds)
        ∧ ds.flatten = buf.drop s := by
  induction amounts with
  | nil =>
      intro s h
      simp only [List.sum_nil, Nat.add_zero] at h
      refine ⟨[], ?_, ?_⟩
      · simp [echoWrite, h.symm.le]
      · simp [h, List.drop_length]
  | cons a rest ih =>
      intro s h
      simp only [List.sum_cons] at h
      by_cases hs : buf.length ≤ s
      · have hsl : s = buf.length := by omega
        refine ⟨[], ?_, ?_⟩
        · simp [echoWrite, hs]
        · simp [hsl, List.drop_length]
      · obtain ⟨ds, hds, hflat⟩ := ih (s + a) (by omega)
        refine ⟨(buf.drop s).take a :: ds, ?_, ?_⟩
        · simp only [List.map_cons, echoWrite, if_neg hs, hds]
        · simp [hflat, List.drop_take_append_drop]

/-- Helper: when the peer accepts write counts summing to strictly less
than the buffer and the next write would-blocks, the echo loop ends by
entering Draining with the full buffer and a cursor at the number of bytes
accepted so far, having delivered exactly that prefix's worth of the
buffer from the starting offset. -/
theorem echoWrite_entersDraining (buf : List Nat) (amounts : List Nat) :
    ∀ t : Nat, t + amounts.sum < buf.length →
      ∃ ds, echoWrite true buf (amounts.map WriteResult.accepted ++ [WriteResult.wouldBlock]) t
          = some (EchoOutcome.drainingStarted ⟨buf, t + amounts.sum⟩, ds)
        ∧ ds.flatten = (buf.drop t).take amounts.sum := by
  induction amounts with
  | nil =>
      intro t h
      simp only [List.sum_nil, Nat.add_zero] at h ⊢
      refine ⟨[], ?_, ?_⟩
      · simp [echoWrite, Nat.not_le.mpr h]
      · simp
  | cons a rest ih =>
      intro t h
      simp only [List.sum_cons] at h ⊢
      have ht : ¬ buf.length ≤ t := by omega
      obtain ⟨ds, hds, hflat⟩ := ih (t + a) (by omega)
      refine ⟨(buf.drop t).take a :: ds, ?_, ?_⟩
      · simp only [List.map_cons, List.cons_append, echoWrite, if_neg ht, List.append_eq,
          hds, Nat.add_assoc]
      · simp only [List.flatten_cons, hflat]
        rw [List.take_add (buf.drop t) a rest.sum, List.drop_drop]

/-- Helper: a run of Writable events whose accepted counts sum exactly to
the unsent remainder completes the drain, delivering exactly that
remainder in order, with no byte duplicated or dropped. -/
theorem drainRun_completes (amounts : List Nat) :
    ∀ (buf : List Nat) (s : Nat), s < buf.length → s + amounts.sum = buf.length →
      ∃ ds, drainRun (amounts.map WriteResult.accepted) ⟨buf, s⟩ = some ds
        ∧ ds.flatten = buf.drop s := by
  induction amounts with
  | nil =>
      intro buf s h1 h2
      simp only [List.sum_nil, Nat.add_zero] at h2
      omega
  | cons a rest ih =>
      intro buf s h1 h2
      simp only [List.sum_cons] at h2
      by_cases ha : 0 < a
      · by_cases hc : s + a = buf.length
        · refine ⟨[(buf.drop s).take a], ?_, ?_⟩
          · simp [drainRun, writableHandler, ha, hc]
          · have hlen : (buf.drop s).length ≤ a := by
              simp only [List.length_drop]
              omega
            simp [List.take_of_length_le hlen]
        · have hlt : s + a < buf.length := by omega
          obtain ⟨ds, hds, hflat⟩ := ih buf (s + a) hlt (by omega)
          refine ⟨(buf.drop s).take a :: ds, ?_, ?_⟩
          · simp [drainRun, writableHandler, ha, hc, hds]
          · simp only [List.flatten_cons, hflat]
            exact List.drop_take_append_drop buf s a
      · have ha0 : a = 0 := by omega
        subst ha0
        obtain ⟨ds, hds, hflat⟩ := ih buf s h1 (by omega)
        refine ⟨[] :: ds, ?_, ?_⟩
        · simp [drainRun, writableHandler, hds]
        · simpa using hflat

/-- C1 counterexample: a byte sequence of length exactly BUFFER_SIZE
(which the claim includes via "length at most the accumulation buffer
bound") sent over an Active connection and followed by a pause is NOT
echoed: the accumulation loop breaks at a full buffer (line 182-185) and
exits the round before the echo code at lines 196-232 can run, even
though the peer would have accepted the whole write.  The client receives
nothing, not B. -/
theorem echo_at_buffer_bound_cex :
    (List.replicate BUFFER_SIZE 65).length ≤ BUFFER_SIZE
    ∧ readableHandler [ReadResult.chunk (List.replicate BUFFER_SIZE 65), ReadResult.wouldBlock]
        [WriteResult.accepted BUFFER_SIZE] true
      = some (RoundResult.bufferFullNoWrite (List.replicate BUFFER_SIZE 65))
    ∧ echoedBytes (readableHandler [ReadResult.chunk (List.replicate BUFFER_SIZE 65), ReadResult.wouldBlock]
        [WriteResult.accepted BUFFER_SIZE] true) = none := by
  refine ⟨by simp, rfl, rfl⟩

/-- C1 (amended: length strictly below the accumulation buffer bound):
for every byte sequence B with length < BUFFER_SIZE, however the kernel
chunks it across reads, a client that sends B over an Active connection
and then pauses (the read trace ends in would-block) receives exactly B
back, byte-for-byte and in order, from the Readable handler's
read-then-echo path, for any way the kernel splits the echo write. -/
theorem echo_roundtrip_below_bound (B : List Nat) (chunks : List (List Nat))
    (amounts : List Nat) (modOk : Bool)
    (hchunks : chunks.flatten = B) (hlen : B.length < BUFFER_SIZE)
    (hsum : amounts.sum = B.length) :
    echoedBytes (readableHandler (chunks.map ReadResult.chunk ++ [ReadResult.wouldBlock])
        (amounts.map WriteResult.accepted) modOk) = some B := by
  have hr := readLoop_drains chunks [] (by simpa [hchunks] using hlen)
  simp only [List.nil_append, hchunks] at hr
  by_cases hB : 0 < B.length
  · obtain ⟨ds, hds, hflat⟩ := echoWrite_fullySent modOk B amounts 0 (by omega)
    simp [readableHandler, hr, hB, hds, echoedBytes, hflat]
  · have hnil : B = [] := List.length_eq_zero.mp (by omega)
    subst hnil
    simp [readableHandler, hr, echoedBytes]

/-- C1 witness: the three-byte sequence [7, 8, 9] sent in one chunk and
echoed across two writes comes back exactly. -/
theorem echo_roundtrip_below_bound_witness :
    echoedBytes (readableHandler [ReadResult.chunk [7, 8, 9], ReadResult.wouldBlock]
        [WriteResult.accepted 2, WriteResult.accepted 1] true) = some [7, 8, 9] :=
  echo_roundtrip_below_bound [7, 8, 9] [[7, 8, 9]] [2, 1] true (by decide) (by decide) (by decide)

/-- C2: when the echo write accepts a0.sum bytes of B and then
would-blocks, the unsent remainder is stored in the pending record with
its cursor (the spec-modelled `PendingData` ⟨B, a0.sum⟩; the interest
switch to Writable is the `drainingStarted` outcome with `modOk = true`),
and once the peer resumes accepting bytes across later Writable events the
client has received B.take a0.sum during the round plus B.drop a0.sum
during the drain: all of B, no byte duplicated or dropped, in order. -/
theorem drain_preserves_all_bytes (B : List Nat) (chunks : List (List Nat))
    (a0 a1 : List Nat)
    (hchunks : chunks.flatten = B) (hlen : B.length < BUFFER_SIZE)
    (h0 : a0.sum < B.length) (h1 : a0.sum + a1.sum = B.length) :
    drainingState (readableHandler (chunks.map ReadResult.chunk ++ [ReadResult.wouldBlock])
        (a0.map WriteResult.accepted ++ [WriteResult.wouldBlock]) true)
      = some (⟨B, a0.sum⟩, B.take a0.sum)
    ∧ (drainRun (a1.map WriteResult.accepted) ⟨B, a0.sum⟩).map List.flatten
        = some (B.drop a0.sum)
    ∧ B.take a0.sum ++ B.drop a0.sum = B := by
  have hr := readLoop_drains chunks [] (by simpa [hchunks] using hlen)
  simp only [List.nil_append, hchunks] at hr
  have hB : 0 < B.length := by omega
  obtain ⟨ds, hds, hflat⟩ := echoWrite_entersDraining B a0 0 (by omega)
  simp only [Nat.zero_add, List.drop_zero] at hds hflat
  obtain ⟨ds1, hds1, hflat1⟩ := drainRun_completes a1 B a0.sum h0 h1
  refine ⟨?_, ?_, List.take_append_drop _ _⟩
  · simp [readableHandler, hr, hB, hds, drainingState, hflat]
  · simp [hds1, hflat1]

/-- C2 witness: B = [10, 20, 30], one byte accepted before the block, the
remaining two delivered across two Writable events. -/
theorem drain_preserves_all_bytes_witness :
    drainingState (readableHandler [ReadResult.chunk [10, 20, 30], ReadResult.wouldBlock]
        [WriteResult.accepted 1, WriteResult.wouldBlock] true)
      = some (⟨[10, 20, 30], 1⟩, [10])
    ∧ (drainRun [WriteResult.accepted 1, WriteResult.accepted 1] ⟨[10, 20, 30], 1⟩).map List.flatten
        = some [20, 30]
    ∧ [10] ++ [20, 30] = [10, 20, 30] := by
  have h := drain_preserves_all_bytes [10, 20, 30] [[10, 20, 30]] [1] [1, 1]
    (by decide) (by decide) (by decide) (by decide)
  simpa using h

/-- C3: failing input for the fixed-buffer edge case.  A burst of exactly
BUFFER_SIZE bytes arriving as two 512-byte reads fills the accumulation
buffer without reaching would-block; the loop does stop accumulating
(line 182-185), but it then exits the round with no write attempt: the
accumulated bytes are discarded, not echoed, contradicting the spec's
"proceed to the write attempt" (spec section 4.3 edge case policy), even
though the write oracle here would have accepted everything. -/
theorem full_buffer_round_skips_echo :
    readableHandler [ReadResult.chunk (List.replicate 512 1), ReadResult.chunk (List.replicate 512 2)]
        [WriteResult.accepted BUFFER_SIZE] true
      = some (RoundResult.bufferFullNoWrite (List.replicate 512 1 ++ List.replicate 512 2))
    ∧ echoedBytes (readableHandler [ReadResult.chunk (List.replicate 512 1), ReadResult.chunk (List.replicate 512 2)]
        [WriteResult.accepted BUFFER_SIZE] true) = none := by
  refine ⟨rfl, rfl⟩

/-- C4 counterexample: a per-connection "mode change" failure is NOT
contained.  With two pending connections, the second one's
`fcntl F_GETFL` failing makes `set_nonblocking` (lines 17-30) call
`exit(EXIT_FAILURE)`: the whole process terminates with status 1 from a
steady-state per-connection failure. -/
theorem fcntl_failure_exits_cex :
    acceptLoop [AcceptResult.conn ⟨5, true, true, true⟩, AcceptResult.conn ⟨6, false, true, true⟩]
      = some ⟨[(5, connRegisterInterest)], [], some 1⟩
    ∧ (1 : Nat) ≠ 0 := by
  refine ⟨rfl, by decide⟩

/-- C4 (amended: the claim holds for failed accept attempts, failed
per-connection registrations and read/write hard errors, which are
contained in the connection's teardown, and fatal setup failures exit
non-zero; but a failed non-blocking mode change on an accepted connection
is NOT contained — `set_nonblocking` exits the process, see the
counterexample): whenever no `fcntl` call fails, the accept loop never
terminates the process regardless of accept errors or registration
failures, and every fatal setup failure exits with a non-zero (namely 1)
status. -/
theorem per_conn_errors_contained :
    (∀ (rs : List AcceptResult) (o : AcceptOutcome),
        (∀ r ∈ rs, fcntlOkOf r = true) → acceptLoop rs = some o → o.exitStatus = none)
    ∧ (∀ a b c d e f g : Bool, ∀ s : Nat, setupPhase a b c d e f g = some s → s ≠ 0) := by
  constructor
  · intro rs
    induction rs with
    | nil => intro o _ h; simp [acceptLoop] at h
    | cons r rest ih =>
        intro o hok h
        match r with
        | .noMore =>
            simp only [acceptLoop, Option.some_inj] at h
            rw [← h]
        | .err =>
            simp only [acceptLoop, Option.some_inj] at h
            rw [← h]
        | .conn c =>
            have hc := hok (.conn c) (by simp)
            simp only [fcntlOkOf, Bool.and_eq_true] at hc
            cases hrec : acceptLoop rest with
            | none => simp [acceptLoop, set_nonblocking, hc.1, hc.2, hrec] at h
            | some o1 =>
                have h1 := ih o1 (fun x hx => hok x (by simp [hx])) hrec
                by_cases hctl : c.ctlOk = true
                · have hstep : acceptLoop (AcceptResult.conn c :: rest)
                      = some { registered := (c.fd, connRegisterInterest) :: o1.registered,
                               closedFds := o1.closedFds, exitStatus := o1.exitStatus } := by
                    simp [acceptLoop, set_nonblocking, hc.1, hc.2, hrec, hctl]
                  rw [hstep, Option.some_inj] at h
                  rw [← h]
                  exact h1
                · have hstep : acceptLoop (AcceptResult.conn c :: rest)
                      = some { registered := o1.registered,
                               closedFds := c.fd :: o1.closedFds, exitStatus := o1.exitStatus } := by
                    simp [acceptLoop, set_nonblocking, hc.1, hc.2, hrec, hctl]
                  rw [hstep, Option.some_inj] at h
                  rw [← h]
                  exact h1
  · intro a b c d e f g s h
    unfold setupPhase at h
    repeat' split at h
    all_goals try simp_all
    all_goals omega

/-- C4 witness: a registration failure closes just that descriptor and the
process keeps running; a failed `bind` during setup exits with 1. -/
theorem per_conn_errors_contained_witness :
    AcceptOutcome.exitStatus ⟨[], [7], none⟩ = none ∧ (1 : Nat) ≠ 0 :=
  ⟨per_conn_errors_contained.1 [AcceptResult.conn ⟨7, true, true, false⟩, AcceptResult.noMore]
      ⟨[], [7], none⟩ (by decide) (by decide),
   per_conn_errors_contained.2 true true true false true true true 1 (by decide)⟩

/-- C5: for every list of pending connections awaiting one Readable event
on the listener, the accept loop (which runs until `accept` signals
EAGAIN) sets each one non-blocking and registers it with interest
`EPOLLIN | EPOLLET | EPOLLRDHUP` ({Readable, PeerClosed} plus the implicit
edge-trigger flag); when no fcntl or epoll_ctl call fails, every
connection is registered, none is closed or dropped, and the process does
not exit. -/
theorem accept_drain_registers_all (cs : List AcceptConn)
    (hok : ∀ c ∈ cs, c.getflOk = true ∧ c.setflOk = true ∧ c.ctlOk = true) :
    acceptLoop (cs.map AcceptResult.conn ++ [AcceptResult.noMore])
      = some ⟨cs.map (fun c => (c.fd, connRegisterInterest)), [], none⟩ := by
  induction cs with
  | nil => simp [acceptLoop]
  | cons c rest ih =>
      obtain ⟨h1, h2, h3⟩ := hok c (by simp)
      have hr := ih (fun x hx => hok x (by simp [hx]))
      simp [acceptLoop, set_nonblocking, h1, h2, h3, hr]

/-- C5 witness: two simultaneous connection attempts, descriptors 8 and 9,
both registered in order. -/
theorem accept_drain_registers_all_witness :
    acceptLoop [AcceptResult.conn ⟨8, true, true, true⟩, AcceptResult.conn ⟨9, true, true, true⟩,
        AcceptResult.noMore]
      = some ⟨[(8, connRegisterInterest), (9, connRegisterInterest)], [], none⟩ :=
  accept_drain_registers_all [⟨8, true, true, true⟩, ⟨9, true, true, true⟩] (by decide)

/-- C6 counterexample: a Writable event on a Draining connection with two
pending bytes whose single write is accepted only partially (one byte,
not a would-block result) ends the event's handling immediately: the
handler performed exactly one `write` (lines 252-253 contain no loop) and
stopped with a byte still unsent, contradicting "writes ... repeatedly
until either all remaining bytes are sent or a would-block result
occurs". -/
theorem writable_single_write_cex :
    writableHandler (WriteResult.accepted 1) ⟨[5, 7], 0⟩
      = DrainResult.stillDraining ⟨[5, 7], 1⟩ [5]
    ∧ WriteResult.accepted 1 ≠ WriteResult.wouldBlock
    ∧ PendingData.sent_len ⟨[5, 7], 1⟩ < (PendingData.buf ⟨[5, 7], 1⟩).length := by
  refine ⟨rfl, by decide, by decide⟩

/-- C6 (amended: each Writable event performs exactly one write from the
pendingOutput cursor onward; if it completes the remainder the pending
record is freed and interest restored, if it is a partial success the
cursor advances by exactly the accepted count, exactly that slice is
delivered, and the connection stays Draining until the next Writable
event): behavior of the single write per event. -/
theorem writable_event_single_write (n : Nat) (p : PendingData) (h0 : 0 < n) :
    (p.sent_len + n = p.buf.length →
      writableHandler (WriteResult.accepted n) p
        = DrainResult.completed (p.buf.drop p.sent_len))
    ∧ (p.sent_len + n < p.buf.length →
      writableHandler (WriteResult.accepted n) p
        = DrainResult.stillDraining ⟨p.buf, p.sent_len + n⟩ ((p.buf.drop p.sent_len).take n)) := by
  constructor
  · intro hc
    have hlen : (p.buf.drop p.sent_len).length ≤ n := by
      simp only [List.length_drop]
      omega
    simp [writableHandler, h0, hc, List.take_of_length_le hlen]
  · intro hc
    simp [writableHandler, h0, Nat.ne_of_lt hc]

/-- C6 witness: one byte pending at cursor 1 of [5, 7]; the single write
completes it and delivers the remainder [7]. -/
theorem writable_event_single_write_witness :
    writableHandler (WriteResult.accepted 1) ⟨[5, 7], 1⟩ = DrainResult.completed [7] :=
  (writable_event_single_write 1 ⟨[5, 7], 1⟩ (by decide)).1 (by decide)

/-- C7: in every reachable state of an open connection, the spec-modelled
pending record is present exactly when the installed interest mask
includes Writable (the states are between-event states, so the transient
moment inside a write attempt is outside the state space); in particular
the `completed` transition of `applyWrite` restores
`connRegisterInterest`, whose `epollout` is false, together with clearing
the pending record, so no further Writable events fire without new
activity. -/
theorem pending_iff_writable_interest (c : Conn)
    (hreach : ConnReachable c) (hopen : c.isOpen = true) :
    c.pending.isSome = c.interest.epollout := by
  unfold ConnReachable at hreach
  induction hreach with
  | refl => rfl
  | tail hab hbc ih =>
      cases hbc with
      | hupClose hb =>
          simp at hopen
      | readRound rt wt mo r hb hin hr =>
          cases r with
          | ok ds => exact ih hb
          | bufferFullNoWrite acc => exact ih hb
          | startedDraining p ds => rfl
          | closedConn ds => simp [applyRead] at hopen
      | writeRound w p hb hout hp =>
          cases hw : writableHandler w p with
          | completed d => simp [applyWrite, hw, connRegisterInterest]
          | stillDraining q d => simp [applyWrite, hw, hout]
          | closedOnError => rw [hw] at hopen; simp [applyWrite] at hopen

/-- C7 witness: the freshly registered connection state is reachable, is
open, and satisfies the invariant (no pending record, no Writable
interest). -/
theorem pending_iff_writable_interest_witness :
    initConn.pending.isSome = initConn.interest.epollout :=
  pending_iff_writable_interest initConn Relation.ReflTransGen.refl rfl

/-- C8: whenever a round's reads return some chunks and then a zero-length
read (orderly peer close), the Readable handler closes the connection —
`close(fd)` at line 191, which also removes the descriptor from the epoll
interest set and ends the connection's record — and this happens even when
bytes were already accumulated in the round: the round delivers nothing,
the accumulated bytes are discarded without any echo attempt (whatever
the write oracle would have answered). -/
theorem zero_read_closes_discards (chunks : List (List Nat)) (wt : List WriteResult)
    (modOk : Bool) (hlen : chunks.flatten.length < BUFFER_SIZE) :
    readableHandler (chunks.map ReadResult.chunk ++ [ReadResult.closed]) wt modOk
      = some (RoundResult.closedConn []) := by
  have hr := readLoop_peerCloses chunks [] (by simpa using hlen)
  simp [readableHandler, hr]

/-- C8 witness: two bytes accumulated, then the peer closes; the
connection is closed and nothing is echoed even though the peer would
have accepted a write. -/
theorem zero_read_closes_discards_witness :
    readableHandler [ReadResult.chunk [1, 2], ReadResult.closed] [WriteResult.accepted 2] true
      = some (RoundResult.closedConn []) :=
  zero_read_closes_discards [[1, 2]] [WriteResult.accepted 2] true (by decide)

/-- C9 counterexample: a readiness event carrying EPOLLRDHUP together with
EPOLLIN, while one byte of input sits buffered (and the peer would even
accept the echo), is handled by the close branch at lines 160-165 before
the readable branch can run: the connection is closed with nothing read
and nothing delivered, so the close does NOT wait for buffered input to
be flushed — had the readable branch run instead, it would have echoed
the byte (second conjunct). -/
theorem rdhup_discards_buffered_input_cex :
    connEventHandler ⟨true, false, true, false⟩ [ReadResult.chunk [65], ReadResult.wouldBlock]
        [WriteResult.accepted 1] true none (WriteResult.accepted 1)
      = some ConnEventResult.disconnected
    ∧ echoedBytes (readableHandler [ReadResult.chunk [65], ReadResult.wouldBlock]
        [WriteResult.accepted 1] true) = some [65] := by
  refine ⟨rfl, rfl⟩

/-- C9 (amended: when the PeerClosed/HalfClose condition fires, together
with or instead of Readable, the connection is closed immediately and
unconditionally, discarding any buffered input and any pending output
without flushing either — the hangup check precedes the readable and
writable branches; the connection is not left registered, since closing
the handle removes it from the multiplexer): every event with EPOLLRDHUP
or EPOLLHUP set yields the immediate-close outcome, whatever the socket
buffers hold. -/
theorem rdhup_closes_immediately (ev : EpollEvents) (rt : List ReadResult)
    (wt : List WriteResult) (modOk : Bool) (pending : Option PendingData) (w : WriteResult)
    (h : ev.rdhup = true ∨ ev.hup = true) :
    connEventHandler ev rt wt modOk pending w = some ConnEventResult.disconnected := by
  unfold connEventHandler
  rcases h with h | h <;> simp [h]

/-- C9 amended-claim witness: an EPOLLHUP-only event on a connection with
nothing buffered closes it immediately. -/
theorem rdhup_closes_immediately_witness :
    connEventHandler ⟨false, false, false, true⟩ [] [] true none WriteResult.wouldBlock
      = some ConnEventResult.disconnected :=
  rdhup_closes_immediately ⟨false, false, false, true⟩ [] [] true none WriteResult.wouldBlock
    (Or.inr rfl)

/-- C10: if `epoll_wait` fails after any number of uneventful turns, the
event loop breaks out of `while (true)` (lines 109-113), `main` closes the
listener and the epoll descriptor, and the process returns 0: a run-time
multiplexer failure produces the same success status as a clean exit
(reported only via perror). -/
theorem wait_failure_exits_zero (pre rest : List WaitTurn)
    (h : ∀ x ∈ pre, x = WaitTurn.batch none) :
    eventLoopRun (pre ++ WaitTurn.waitFail :: rest) = some 0 := by
  induction pre with
  | nil => simp [eventLoopRun]
  | cons x xs ih =>
      have hx := h x (by simp)
      subst hx
      simpa [eventLoopRun] using ih (fun y hy => h y (by simp [hy]))

/-- C10 witness: one uneventful turn, then the wait failure: the process
exits with status 0. -/
theorem wait_failure_exits_zero_witness :
    eventLoopRun [WaitTurn.batch none, WaitTurn.waitFail] = some 0 :=
  wait_failure_exits_zero [WaitTurn.batch none] [] (by decide)
